import Mathlib

/-!
Shallow embedding of the session-scoped retrieval orchestration subsystem
of `src/app.py` (a WhatsApp PDF question-answering bot), together with
theorems settling the frozen claims about its specification.

Texts are modelled as `List Char` (Python `str`), so that every definition
is executable and every concrete run can be checked by `decide`.
External collaborators (filesystem, FAISS index loading, answer generation,
JSON parsing) are modelled as explicit parameters of the functions that
use them.
-/

/-- Python `str.strip` and `str.lstrip` whitespace, restricted to the ASCII
whitespace characters Python recognises: space, tab, newline, carriage
return, vertical tab, form feed. -/
def pyIsSpace (c : Char) : Bool :=
  c = ' ' || c = '\t' || c = '\n' || c = '\r' || c = '\x0b' || c = '\x0c'

/-- A character that is not Python whitespace. -/
def nonWs (c : Char) : Bool := !(pyIsSpace c)

/-- `part.strip()` is truthy: the part holds at least one non-whitespace
character.  Used for the final filter of `split_message` (line 179). -/
def hasNonWs (l : List Char) : Bool := l.any nonWs

/-- The occurrence test of Python `str.rfind`: `sub` occurs in `text`
starting at index `i` (automatically false when it would run past the end
of `text`). -/
def matchesAt (sub text : List Char) (i : Nat) : Bool :=
  decide ((text.drop i).take sub.length = sub)

/-- Downward search helper for `rfind`: the largest index `i ≤ j` at which
`sub` occurs, if any. -/
def rfindAux (sub text : List Char) : Nat → Option Nat
  | 0 => if matchesAt sub text 0 then some 0 else none
  | j + 1 => if matchesAt sub text (j + 1) then some (j + 1) else rfindAux sub text j

/-- Python `text.rfind(sub, 0, stop)` for non-empty `sub`: the largest `i`
with `i + sub.length ≤ stop` at which `sub` occurs in `text`, `none`
standing for Python result `-1`. -/
def rfind (sub text : List Char) (stop : Nat) : Option Nat :=
  if sub.length ≤ stop then rfindAux sub text (stop - sub.length) else none

/-- The cut point chosen by one iteration of the `split_message` loop
(lines 167-173 of `src/app.py`): last newline in the first `maxLength`
characters, else last ". ", else last space, else `maxLength` itself. -/
def splitPoint (text : List Char) (maxLength : Nat) : Nat :=
  match rfind ['\n'] text maxLength with
  | some i => i
  | none =>
    match rfind ['.', ' '] text maxLength with
    | some i => i
    | none =>
      match rfind [' '] text maxLength with
      | some i => i
      | none => maxLength

/-- One loop iteration of `split_message` removes `splitPoint + 1`
characters and then strips leading whitespace (line 176); this is the
remaining text. -/
def splitRest (text : List Char) (maxLength : Nat) : List Char :=
  (text.drop (splitPoint text maxLength + 1)).dropWhile pyIsSpace

/-- The `while len(text) > max_length` loop of `split_message`
(lines 166-178), written with a fuel argument so that it is structurally
recursive; `text.length` is always enough fuel because every iteration
removes at least one character (`splitLoop_eq` below recovers the loop
equation). -/
def splitLoopF (maxLength : Nat) : Nat → List Char → List (List Char)
  | 0, text => [text]
  | fuel + 1, text =>
    if text.length ≤ maxLength then [text]
    else text.take (splitPoint text maxLength + 1) :: splitLoopF maxLength fuel (splitRest text maxLength)

/-- The loop of `split_message` including the final `parts.append(text)`. -/
def splitLoop (text : List Char) (maxLength : Nat) : List (List Char) :=
  splitLoopF maxLength text.length text

/-- `split_message` from `src/app.py` lines 158-179: empty input gives no
parts; otherwise run the cutting loop and drop the parts that are empty
after stripping. -/
def split_message (text : List Char) (maxLength : Nat) : List (List Char) :=
  if text.isEmpty then []
  else (splitLoop text maxLength).filter hasNonWs

theorem rfindAux_le (sub text : List Char) :
    ∀ (j i : Nat), rfindAux sub text j = some i → i ≤ j := by
  intro j
  induction j with
  | zero =>
    intro i h
    unfold rfindAux at h
    split at h
    · cases h; exact Nat.le_refl 0
    · cases h
  | succ j ih =>
    intro i h
    unfold rfindAux at h
    split at h
    · cases h; exact Nat.le_refl _
    · exact Nat.le_trans (ih i h) (Nat.le_succ j)

theorem rfind_bound (sub text : List Char) (stop i : Nat)
    (h : rfind sub text stop = some i) : i + sub.length ≤ stop := by
  unfold rfind at h
  split at h
  · have := rfindAux_le sub text _ _ h
    omega
  · cases h

theorem splitPoint_le (text : List Char) (maxLength : Nat) :
    splitPoint text maxLength ≤ maxLength := by
  unfold splitPoint
  cases h1 : rfind ['\n'] text maxLength with
  | some i =>
    have := rfind_bound _ _ _ _ h1
    simp at this
    show i ≤ maxLength
    omega
  | none =>
    cases h2 : rfind ['.', ' '] text maxLength with
    | some i =>
      have := rfind_bound _ _ _ _ h2
      simp at this
      show i ≤ maxLength
      omega
    | none =>
      cases h3 : rfind [' '] text maxLength with
      | some i =>
        have := rfind_bound _ _ _ _ h3
        simp at this
        show i ≤ maxLength
        omega
      | none => exact Nat.le_refl _

theorem splitRest_length_lt (text : List Char) (maxLength : Nat)
    (h : maxLength < text.length) :
    (splitRest text maxLength).length < text.length := by
  unfold splitRest
  have h1 : ((text.drop (splitPoint text maxLength + 1)).dropWhile pyIsSpace).length
      ≤ (text.drop (splitPoint text maxLength + 1)).length :=
    (List.dropWhile_sublist pyIsSpace).length_le
  have h2 : (text.drop (splitPoint text maxLength + 1)).length
      = text.length - (splitPoint text maxLength + 1) := List.length_drop _ _
  omega

theorem splitLoopF_congr (maxLength : Nat) :
    ∀ (f1 f2 : Nat) (text : List Char), text.length ≤ f1 → text.length ≤ f2 →
      splitLoopF maxLength f1 text = splitLoopF maxLength f2 text := by
  intro f1
  induction f1 with
  | zero =>
    intro f2 text h1 _
    have ht : text = [] := List.length_eq_zero.mp (Nat.le_zero.mp h1)
    subst ht
    cases f2 <;> simp [splitLoopF]
  | succ f ih =>
    intro f2 text h1 h2
    cases f2 with
    | zero =>
      have ht : text = [] := List.length_eq_zero.mp (Nat.le_zero.mp h2)
      subst ht
      simp [splitLoopF]
    | succ f2 =>
      by_cases hle : text.length ≤ maxLength
      · simp [splitLoopF, hle]
      · have hlt := splitRest_length_lt text maxLength (Nat.lt_of_not_le hle)
        simp only [splitLoopF, if_neg hle]
        congr 1
        exact ih f2 _ (by omega) (by omega)

/-- The loop equation of `split_message`: if the text fits it becomes the
final part, otherwise one part of `splitPoint + 1` characters is cut off
and the loop continues on the stripped remainder. -/
theorem splitLoop_eq (text : List Char) (maxLength : Nat) :
    splitLoop text maxLength =
      if text.length ≤ maxLength then [text]
      else text.take (splitPoint text maxLength + 1) :: splitLoop (splitRest text maxLength) maxLength := by
  unfold splitLoop
  by_cases hle : text.length ≤ maxLength
  · rw [if_pos hle]
    cases hn : text.length with
    | zero => simp [splitLoopF]
    | succ n => simp [splitLoopF, hle]
  · rw [if_neg hle]
    have hpos : 0 < text.length := by omega
    obtain ⟨n, hn⟩ : ∃ n, text.length = n + 1 := ⟨text.length - 1, by omega⟩
    rw [hn]
    simp only [splitLoopF]
    rw [if_neg hle]
    congr 1
    have hlt := splitRest_length_lt text maxLength (Nat.lt_of_not_le hle)
    exact splitLoopF_congr maxLength n _ _ (by omega) (Nat.le_refl _)

theorem splitLoopF_part_length (maxLength fuel : Nat) :
    ∀ (text : List Char), text.length ≤ fuel →
      ∀ p ∈ splitLoopF maxLength fuel text, p.length ≤ maxLength + 1 := by
  induction fuel with
  | zero =>
    intro text h p hp
    simp [splitLoopF] at hp
    subst hp
    omega
  | succ fuel ih =>
    intro text h p hp
    by_cases hle : text.length ≤ maxLength
    · simp [splitLoopF, hle] at hp
      subst hp
      omega
    · simp only [splitLoopF, if_neg hle, List.mem_cons] at hp
      rcases hp with hp | hp
      · subst hp
        have h1 := List.length_take_le (splitPoint text maxLength + 1) text
        have h2 := splitPoint_le text maxLength
        omega
      · have hlt := splitRest_length_lt text maxLength (Nat.lt_of_not_le hle)
        exact ih (splitRest text maxLength) (by omega) p hp

theorem splitLoop_part_length (text : List Char) (maxLength : Nat) :
    ∀ p ∈ splitLoop text maxLength, p.length ≤ maxLength + 1 :=
  splitLoopF_part_length maxLength text.length text (Nat.le_refl _)

theorem mem_split_message (text : List Char) (maxLength : Nat) (p : List Char)
    (h : p ∈ split_message text maxLength) :
    p ∈ splitLoop text maxLength ∧ hasNonWs p = true := by
  unfold split_message at h
  split at h
  · cases h
  · exact ⟨List.mem_of_mem_filter h, (List.mem_filter.mp h).2⟩

theorem flatten_sublist_of_sublist {s t : List (List Char)} (h : s.Sublist t) :
    s.flatten.Sublist t.flatten := by
  induction h with
  | slnil => exact List.Sublist.refl _
  | cons a _ ih =>
    rw [List.flatten_cons]
    exact ih.trans (List.sublist_append_right a _)
  | cons₂ a _ ih =>
    rw [List.flatten_cons, List.flatten_cons]
    exact ih.append_left a

theorem splitLoopF_flatten_sublist (maxLength fuel : Nat) :
    ∀ (text : List Char), (splitLoopF maxLength fuel text).flatten.Sublist text := by
  induction fuel with
  | zero => intro text; simp [splitLoopF]
  | succ fuel ih =>
    intro text
    by_cases hle : text.length ≤ maxLength
    · simp [splitLoopF, hle]
    · simp only [splitLoopF, if_neg hle, List.flatten_cons]
      have hrest : (splitLoopF maxLength fuel (splitRest text maxLength)).flatten.Sublist
          (text.drop (splitPoint text maxLength + 1)) :=
        (ih (splitRest text maxLength)).trans (List.dropWhile_sublist pyIsSpace)
      have h2 := hrest.append_left (text.take (splitPoint text maxLength + 1))
      rw [List.take_append_drop] at h2
      exact h2

theorem filter_nonWs_dropWhile (l : List Char) :
    ((l.dropWhile pyIsSpace).filter nonWs) = l.filter nonWs := by
  induction l with
  | nil => rfl
  | cons c cs ih =>
    by_cases h : pyIsSpace c = true
    · have hn : nonWs c = false := by simp [nonWs, h]
      simp [List.dropWhile_cons, h, List.filter_cons, hn, ih]
    · simp [List.dropWhile_cons, h]

theorem splitLoopF_flatten_filter (maxLength fuel : Nat) :
    ∀ (text : List Char),
      (splitLoopF maxLength fuel text).flatten.filter nonWs = text.filter nonWs := by
  induction fuel with
  | zero => intro text; simp [splitLoopF]
  | succ fuel ih =>
    intro text
    by_cases hle : text.length ≤ maxLength
    · simp [splitLoopF, hle]
    · simp only [splitLoopF, if_neg hle, List.flatten_cons, List.filter_append]
      rw [ih (splitRest text maxLength)]
      unfold splitRest
      rw [filter_nonWs_dropWhile, ← List.filter_append, List.take_append_drop]

theorem filter_nonWs_eq_nil (a : List Char) (h : hasNonWs a = false) :
    a.filter nonWs = [] := by
  induction a with
  | nil => rfl
  | cons c cs ih =>
    unfold hasNonWs at h ih
    simp only [List.any_cons, Bool.or_eq_false_iff] at h
    simp [List.filter_cons, h.1, ih h.2]

theorem flatten_filter_hasNonWs (parts : List (List Char)) :
    ((parts.filter hasNonWs).flatten.filter nonWs) = parts.flatten.filter nonWs := by
  induction parts with
  | nil => rfl
  | cons a ps ih =>
    by_cases ha : hasNonWs a = true
    · simp [List.filter_cons, ha, List.flatten_cons, List.filter_append, ih]
    · rw [Bool.not_eq_true] at ha
      simp [List.filter_cons, ha, List.flatten_cons, List.filter_append, ih,
        filter_nonWs_eq_nil a ha]

/-- The multipart marker of the webhook send loop (line 321 of
`src/app.py`): the f-string `(Parte i/total)` followed by a newline,
prefixed to a part when the answer was split into more than one part. -/
def partMarker (i total : Nat) : List Char :=
  ("(Parte " ++ toString i ++ "/" ++ toString total ++ ")\n").toList

/-- The `for i, part in enumerate(partes_resposta)` send loop of the
webhook (lines 320-324): each part is prefixed with `partMarker` exactly
when the total number of parts exceeds one.  The result list is the
sequence of message bodies in the order they are sent. -/
def sendPartsAux (total : Nat) : Nat → List (List Char) → List (List Char)
  | _, [] => []
  | i, p :: rest =>
    (if 1 < total then partMarker (i + 1) total ++ p else p) :: sendPartsAux total (i + 1) rest

/-- Message bodies sent for a list of answer parts, in send order. -/
def sendParts (parts : List (List Char)) : List (List Char) :=
  sendPartsAux parts.length 0 parts

theorem sendPartsAux_length (total : Nat) :
    ∀ (i : Nat) (l : List (List Char)), (sendPartsAux total i l).length = l.length := by
  intro i l
  induction l generalizing i with
  | nil => rfl
  | cons p rest ih => simp [sendPartsAux, ih]

theorem sendPartsAux_getElem (total : Nat) :
    ∀ (l : List (List Char)) (k i : Nat),
      (sendPartsAux total k l)[i]? =
        (l[i]?).map (fun p => if 1 < total then partMarker (k + i + 1) total ++ p else p) := by
  intro l
  induction l with
  | nil => intro k i; simp [sendPartsAux]
  | cons p rest ih =>
    intro k i
    cases i with
    | zero => simp [sendPartsAux]
    | succ i =>
      have heq : k + 1 + i + 1 = k + (i + 1) + 1 := by omega
      simp only [sendPartsAux, List.getElem?_cons_succ, ih (k + 1) i, heq]

/-- A per-user session record, the value stored in the `user_sessions`
dictionary (line 294 of `src/app.py`): the FAISS index location and the
name of the most recently ingested PDF.  `none` models an absent key. -/
structure Session where
  faiss_index_path : Option (List Char)
  pdf_name : Option (List Char)
deriving DecidableEq

/-- The `user_sessions` dictionary: an association list from user WAID to
session record. -/
abbrev SessionMap := List (List Char × Session)

/-- Python dictionary membership and lookup (`user_waid in user_sessions`,
`user_sessions[user_waid]`). -/
def lookupSession : SessionMap → List Char → Option Session
  | [], _ => none
  | (k, v) :: rest, u => if k = u then some v else lookupSession rest u

/-- Python dictionary assignment `user_sessions[user_waid] = record`:
replaces the record stored for the key, or adds it. -/
def updateSession : SessionMap → List Char → Session → SessionMap
  | [], u, r => [(u, r)]
  | (k, v) :: rest, u, r =>
    if k = u then (u, r) :: rest else (k, v) :: updateSession rest u r

/-- External collaborators of the webhook text path, modelled as pure
oracles: `pathExists` is `os.path.exists` on an index location, `loadOk`
says whether the `try` block of `get_qa_chain_for_user` (FAISS load, LLM
and chain construction) succeeds for that location, and `generate` is the
`qa_chain.invoke` call, returning the answer text or the exception detail. -/
structure Env where
  pathExists : List Char → Bool
  loadOk : List Char → Bool
  generate : List Char → Except (List Char) (List Char)

/-- `get_qa_chain_for_user` from `src/app.py` lines 204-243, with the QA
chain represented by the index location it was loaded from.  Returns
`none` exactly when the Python function returns `None`: no session, no
(or empty) `faiss_index_path`, missing path, or a load failure. -/
def get_qa_chain_for_user (env : Env) (sessions : SessionMap) (user_waid : List Char) :
    Option (List Char) :=
  match lookupSession sessions user_waid with
  | some s =>
    match s.faiss_index_path with
    | some p =>
      if p.isEmpty then none
      else if env.pathExists p = false then none
      else if env.loadOk p then some p else none
    | none => none
  | none => none

/-- The onboarding prompt of the webhook text branch (line 308). -/
def onboardingMsg : List Char :=
  "Olá! 👋 Para começar, por favor, me envie o documento PDF sobre o qual você gostaria de conversar.".toList

/-- The reply of the dead `else` branch of the text path (line 331),
asking the user to re-send the document. -/
def resendMsg : List Char :=
  "Ocorreu um problema ao carregar os dados do seu PDF. Por favor, envie o documento novamente para recriar o índice.".toList

/-- The apologetic reply sent when `qa_chain.invoke` raises (line 328);
the exception detail is appended. -/
def genErrorMsg : List Char :=
  "Desculpe, ocorreu um erro ao processar sua pergunta: ".toList

/-- The text branch of the webhook (`src/app.py` lines 306-333).  Returns
the list of message bodies sent to the user, in order, together with the
number of times `get_qa_chain_for_user` was invoked (the `or` on line 307
short-circuits, and the `else` branch on line 310 calls it a second
time). -/
def handleText (env : Env) (sessions : SessionMap) (user_waid question : List Char) :
    List (List Char) × Nat :=
  if (lookupSession sessions user_waid).isNone then ([onboardingMsg], 0)
  else if (get_qa_chain_for_user env sessions user_waid).isNone then ([onboardingMsg], 1)
  else
    match get_qa_chain_for_user env sessions user_waid with
    | some _ =>
      match env.generate question with
      | Except.ok ans => (sendParts (split_message ans 1550), 2)
      | Except.error e => ([genErrorMsg ++ e], 2)
    | none => ([resendMsg], 2)

/-- The index location chosen by `processar_pdf_e_criar_qa_chain_user`
(lines 120-124): `os.path.join("faiss_indices", user_waid)` then
`os.path.join(..., "faiss_index")`, for the relative, non-empty WAID
components the webhook supplies. -/
def user_faiss_index_path (user_waid : List Char) : List Char :=
  "faiss_indices/".toList ++ user_waid ++ "/faiss_index".toList

/-- The session update performed by the webhook on a successful document
ingestion (lines 291-295): the record for the user is replaced wholesale
by the freshly computed index location and document name. -/
def handleDocumentSuccess (sessions : SessionMap) (user_waid pdfName : List Char) :
    SessionMap :=
  updateSession sessions user_waid
    ⟨some (user_faiss_index_path user_waid), some pdfName⟩

/-- `load_sessions` from `src/app.py` lines 75-99, with the JSON decoder
passed in as an oracle (`parse c = none` models a `json.JSONDecodeError`).
The argument `file` is the current contents of `sessions.json` (`none`
when the file is missing) and `prev` the in-memory `user_sessions` the
function would keep when the file is empty.  Returns the contents of
`sessions.json` after the call (the function creates the file with
`"{}"` when missing) and the resulting `user_sessions`. -/
def load_sessions (parse : List Char → Option SessionMap)
    (file : Option (List Char)) (prev : SessionMap) : List Char × SessionMap :=
  let contents := match file with
    | none => "\x7b\x7d".toList
    | some c => c
  if 0 < contents.length then
    match parse contents with
    | some m => (contents, m)
    | none => (contents, [])
  else (contents, prev)

/-- An environment in which no index location exists on disk. -/
def envNoIndex : Env :=
  ⟨fun _ => false, fun _ => false, fun _ => Except.error []⟩

theorem lookupSession_updateSession_self (sessions : SessionMap)
    (u : List Char) (r : Session) :
    lookupSession (updateSession sessions u r) u = some r := by
  induction sessions with
  | nil => simp [updateSession, lookupSession]
  | cons kv rest ih =>
    by_cases h : kv.1 = u
    · simp [updateSession, h, lookupSession]
    · simp [updateSession, h, lookupSession, ih]

theorem lookupSession_updateSession_other (sessions : SessionMap)
    (u v : List Char) (r : Session) (hvu : v ≠ u) :
    lookupSession (updateSession sessions u r) v = lookupSession sessions v := by
  have huv : u ≠ v := Ne.symm hvu
  induction sessions with
  | nil => simp [updateSession, lookupSession, huv]
  | cons kv rest ih =>
    by_cases h : kv.1 = u
    · simp [updateSession, h, lookupSession, huv]
    · by_cases h2 : kv.1 = v
      · simp [updateSession, h, lookupSession, h2, hvu]
      · simp [updateSession, h, lookupSession, h2, ih]

theorem user_faiss_index_path_injective (u1 u2 : List Char)
    (h : user_faiss_index_path u1 = user_faiss_index_path u2) : u1 = u2 := by
  unfold user_faiss_index_path at h
  rw [List.append_assoc, List.append_assoc] at h
  exact List.append_cancel_right (List.append_cancel_left h)

/-- C1 (counterexample): the claim that every part of
`split_message(T, L)` has length at most `L` fails on the hard-split case:
for the four-character text with no newline, ". " or space in its first 3
characters and limit 3, the code takes `text[:max_length + 1]`, a part of
length 4. -/
theorem c1_counterexample :
    ∃ p ∈ split_message ['a', 'b', 'c', 'd'] 3, 3 < p.length := by decide

/-- C1 (amended): every part returned by `split_message(T, L)` has length
at most `L + 1`; the hard split cuts at `max_length` but the part keeps
`split_point + 1` characters, so it can exceed the limit by exactly one. -/
theorem c1_part_length (text : List Char) (maxLength : Nat) (p : List Char)
    (h : p ∈ split_message text maxLength) : p.length ≤ maxLength + 1 :=
  splitLoop_part_length text maxLength p (mem_split_message text maxLength p h).1

/-- Witness for C1 at a concrete input. -/
theorem c1_witness : (['a', 'b'] : List Char).length ≤ 5 + 1 :=
  c1_part_length ['a', 'b'] 5 ['a', 'b'] (by decide)

/-- C2: splitting is lossless up to whitespace: the concatenation of the
parts of `split_message(T, L)` is a subsequence of `T` (no character is
invented or reordered) and keeps exactly the non-whitespace characters of
`T` in order (each cut only drops whitespace). -/
theorem c2_lossless (text : List Char) (maxLength : Nat) :
    ((split_message text maxLength).flatten).Sublist text
    ∧ ((split_message text maxLength).flatten).filter nonWs = text.filter nonWs := by
  by_cases hE : text.isEmpty = true
  · have ht : text = [] := List.isEmpty_iff.mp hE
    subst ht
    simp [split_message]
  · unfold split_message
    rw [if_neg hE]
    unfold splitLoop
    constructor
    · exact (flatten_sublist_of_sublist (List.filter_sublist _)).trans
        (splitLoopF_flatten_sublist maxLength text.length text)
    · rw [flatten_filter_hasNonWs]
      exact splitLoopF_flatten_filter maxLength text.length text

/-- C3 (counterexample): for a user whose session record exists with an
index location that does not exist on disk, the dispatcher replies with
the onboarding prompt, not with the distinct re-send message the claim
requires: the guard on line 307 already folds a load failure into the
onboarding branch. -/
theorem c3_counterexample :
    lookupSession [(['u'], Session.mk (some ['p']) (some ['d']))] ['u']
        = some (Session.mk (some ['p']) (some ['d']))
    ∧ get_qa_chain_for_user envNoIndex
        [(['u'], Session.mk (some ['p']) (some ['d']))] ['u'] = none
    ∧ (handleText envNoIndex
        [(['u'], Session.mk (some ['p']) (some ['d']))] ['u'] ['q']).1 = [onboardingMsg]
    ∧ onboardingMsg ≠ resendMsg := by
  refine ⟨by decide, by decide, by decide, by decide⟩

/-- C3 (amended): when a text event arrives for a user whose session
record exists but whose index cannot be loaded, the dispatcher replies
with the onboarding prompt, the same reply a user with no session gets
(after one failed QA-chain construction attempt); the re-send reply of
line 331 is not produced in this situation. -/
theorem c3_index_unavailable_onboarding (env : Env) (sessions : SessionMap)
    (user_waid question : List Char) (s : Session)
    (h1 : lookupSession sessions user_waid = some s)
    (h2 : get_qa_chain_for_user env sessions user_waid = none) :
    handleText env sessions user_waid question = ([onboardingMsg], 1)
    ∧ onboardingMsg ≠ resendMsg := by
  refine ⟨?_, by decide⟩
  simp [handleText, h1, h2]

/-- Witness for C3 at a concrete input. -/
theorem c3_witness :
    handleText envNoIndex [(['u'], Session.mk (some ['p']) (some ['d']))] ['u'] ['q']
        = ([onboardingMsg], 1) ∧ onboardingMsg ≠ resendMsg :=
  c3_index_unavailable_onboarding envNoIndex
    [(['u'], Session.mk (some ['p']) (some ['d']))] ['u'] ['q']
    (Session.mk (some ['p']) (some ['d'])) (by decide) (by decide)

/-- C4 (counterexample): `split_message("AAAA. BBBB. CCCC.", 10)` does not
return the claimed parts with trailing spaces: the cut keeps only the
period (`text[:split_point + 1]` where `split_point` is the index of the
`.`), and the following space is removed by `lstrip`. -/
theorem c4_counterexample :
    split_message "AAAA. BBBB. CCCC.".toList 10
      ≠ ["AAAA. ".toList, "BBBB. ".toList, "CCCC.".toList] := by decide

/-- C4 (amended): `split_message("AAAA. BBBB. CCCC.", 10)` returns exactly
the three parts "AAAA.", "BBBB.", "CCCC.", cutting at the ". " boundaries
and dropping the space after each period. -/
theorem c4_parts :
    split_message "AAAA. BBBB. CCCC.".toList 10
      = ["AAAA.".toList, "BBBB.".toList, "CCCC.".toList] := by decide

/-- C5: a text event for a sender with no session record yields the
onboarding prompt as the only reply, and `get_qa_chain_for_user` (the
QA-chain construction) is never invoked: the `or` on line 307
short-circuits. -/
theorem c5_no_session_onboarding (env : Env) (sessions : SessionMap)
    (user_waid question : List Char)
    (h : lookupSession sessions user_waid = none) :
    handleText env sessions user_waid question = ([onboardingMsg], 0) := by
  simp [handleText, h]

/-- Witness for C5 at a concrete input. -/
theorem c5_witness : handleText envNoIndex [] ['u'] ['q'] = ([onboardingMsg], 0) :=
  c5_no_session_onboarding envNoIndex [] ['u'] ['q'] rfl

/-- C6: the send loop preserves the number and order of the parts, sends a
single part unannotated, and when there is more than one part prefixes the
part at position `i` (zero-based) with the `(Parte (i+1)/N)` marker. -/
theorem c6_markers (ans : List Char) (maxLength i : Nat) (p : List Char)
    (h : (split_message ans maxLength)[i]? = some p) :
    (sendParts (split_message ans maxLength)).length
        = (split_message ans maxLength).length
    ∧ (sendParts (split_message ans maxLength))[i]? =
        some (if 1 < (split_message ans maxLength).length
              then partMarker (i + 1) (split_message ans maxLength).length ++ p
              else p) := by
  refine ⟨sendPartsAux_length _ _ _, ?_⟩
  unfold sendParts
  rw [sendPartsAux_getElem _ _ 0 i, h]
  simp

/-- Witness for C6 at a concrete input. -/
theorem c6_witness :
    (sendParts (split_message ['h', 'i'] 5)).length = (split_message ['h', 'i'] 5).length
    ∧ (sendParts (split_message ['h', 'i'] 5))[0]? =
        some (if 1 < (split_message ['h', 'i'] 5).length
              then partMarker (0 + 1) (split_message ['h', 'i'] 5).length ++ ['h', 'i']
              else ['h', 'i']) :=
  c6_markers ['h', 'i'] 5 0 ['h', 'i'] (by decide)

/-- C7: `load_sessions` never fails the caller: a missing `sessions.json`
is created holding the empty JSON object (which decodes to the empty
collection), and unparseable contents (a decode error) yield the empty
collection instead of raising. -/
theorem c7_load_sessions (parse : List Char → Option SessionMap)
    (prev : SessionMap) (c : List Char)
    (hbrace : parse "\x7b\x7d".toList = some [])
    (hlen : 0 < c.length) (hbad : parse c = none) :
    load_sessions parse none prev = ("\x7b\x7d".toList, [])
    ∧ load_sessions parse (some c) prev = (c, []) := by
  constructor
  · unfold load_sessions
    rw [if_pos (by decide)]
    rw [hbrace]
  · unfold load_sessions
    rw [if_pos hlen]
    rw [hbad]

/-- A stub JSON decoder accepting only the empty object. -/
def parseOnlyEmpty (c : List Char) : Option SessionMap :=
  if c = "\x7b\x7d".toList then some [] else none

/-- Witness for C7 at a concrete input. -/
theorem c7_witness :
    load_sessions parseOnlyEmpty none [] = ("\x7b\x7d".toList, [])
    ∧ load_sessions parseOnlyEmpty (some ['x']) [] = (['x'], []) :=
  c7_load_sessions parseOnlyEmpty [] ['x'] (by decide) (by decide) (by decide)

/-- C8: a successful ingestion replaces the user session record
wholesale (one active document per user), leaves other users records
untouched, re-ingestion by the same user overwrites the record with the
same deterministic index location, and the location
`faiss_indices/<waid>/faiss_index` is injective in the user identity, so
two distinct users locations never collide. -/
theorem c8_ingestion (sessions : SessionMap)
    (u v pdf pdf2 u1 u2 : List Char) (hvu : v ≠ u)
    (hpath : user_faiss_index_path u1 = user_faiss_index_path u2) :
    lookupSession (handleDocumentSuccess sessions u pdf) u
        = some ⟨some (user_faiss_index_path u), some pdf⟩
    ∧ lookupSession (handleDocumentSuccess sessions u pdf) v = lookupSession sessions v
    ∧ lookupSession (handleDocumentSuccess (handleDocumentSuccess sessions u pdf) u pdf2) u
        = some ⟨some (user_faiss_index_path u), some pdf2⟩
    ∧ u1 = u2 :=
  ⟨lookupSession_updateSession_self _ _ _,
   lookupSession_updateSession_other _ _ _ _ hvu,
   lookupSession_updateSession_self _ _ _,
   user_faiss_index_path_injective _ _ hpath⟩

/-- Witness for C8 at a concrete input. -/
theorem c8_witness :
    lookupSession (handleDocumentSuccess [] ['a'] ['x']) ['a']
        = some ⟨some (user_faiss_index_path ['a']), some ['x']⟩
    ∧ lookupSession (handleDocumentSuccess [] ['a'] ['x']) ['b'] = lookupSession [] ['b']
    ∧ lookupSession (handleDocumentSuccess (handleDocumentSuccess [] ['a'] ['x']) ['a'] ['y']) ['a']
        = some ⟨some (user_faiss_index_path ['a']), some ['y']⟩
    ∧ (['a'] : List Char) = ['a'] :=
  c8_ingestion [] ['a'] ['b'] ['x'] ['y'] ['a'] ['a'] (by decide) rfl

/-- C9: `split_message` of the empty text is the empty sequence, and no
returned part is empty or whitespace-only (the final filter keeps only
parts with a non-whitespace character). -/
theorem c9_no_blank_parts (text : List Char) (maxLength : Nat) (p : List Char)
    (h : p ∈ split_message text maxLength) :
    split_message [] maxLength = [] ∧ p ≠ [] ∧ p.all pyIsSpace = false := by
  obtain ⟨-, hNW⟩ := mem_split_message text maxLength p h
  unfold hasNonWs at hNW
  obtain ⟨c, hc, hnc⟩ := List.any_eq_true.mp hNW
  refine ⟨rfl, List.ne_nil_of_mem hc, ?_⟩
  refine List.all_eq_false.mpr ⟨c, hc, ?_⟩
  simp [nonWs] at hnc
  simp [hnc]

/-- Witness for C9 at a concrete input. -/
theorem c9_witness :
    split_message [] 5 = [] ∧ (['a'] : List Char) ≠ []
    ∧ (['a'] : List Char).all pyIsSpace = false :=
  c9_no_blank_parts ['a'] 5 ['a'] (by decide)

/-- C10: when the remaining text is longer than the limit, one loop
iteration of `split_message` takes the part `text.take (splitPoint + 1)`
and continues on the stripped remainder, whose length is strictly smaller
than before, so the loop terminates once the remainder fits. -/
theorem c10_loop_decreases (text : List Char) (maxLength : Nat)
    (hpos : 1 ≤ maxLength) (h : maxLength < text.length) :
    splitLoop text maxLength
        = text.take (splitPoint text maxLength + 1)
            :: splitLoop (splitRest text maxLength) maxLength
    ∧ (splitRest text maxLength).length < text.length := by
  refine ⟨?_, splitRest_length_lt text maxLength h⟩
  rw [splitLoop_eq, if_neg (by omega)]

/-- Witness for C10 at a concrete input. -/
theorem c10_witness :
    splitLoop ['a', 'b', 'c'] 1
        = (['a', 'b', 'c'] : List Char).take (splitPoint ['a', 'b', 'c'] 1 + 1)
            :: splitLoop (splitRest ['a', 'b', 'c'] 1) 1
    ∧ (splitRest ['a', 'b', 'c'] 1).length < (['a', 'b', 'c'] : List Char).length :=
  c10_loop_decreases ['a', 'b', 'c'] 1 (by decide) (by decide)
